import Mathlib

/-!
Shallow embedding of the consumable-capacity accounting core of the
dynamic-resource-allocation code (package `structured/internal` and
`structured/internal/experimental`):

* `Quantity` models `k8s.io/apimachinery/pkg/api/resource.Quantity` restricted
  to integral values: the exact numeric value in base units, the cached
  canonical string `s`, and the suffix `Format`.  Go struct equality (`==`)
  on `resource.Quantity` compares all fields; numeric comparison is `Cmp`.
* association lists with distinct keys model Go maps;
* `calculateConsumedCapacity`, `violatesPolicy`,
  `requestsContainNonExistCapacity` and `CmpRequestOverCapacity` are
  translated from
  `structured/internal/experimental/consumable_capacity.go`
  (the variant of `CmpRequestOverCapacity` carrying the
  `allowMultipleAllocations` guard, src/unnamed/part_002 lines 705-757;
  the staging snapshot of the same function differs only by omitting that
  guard);
* `ConsumedCapacity`, `ConsumedCapacityCollection` and
  `UniqueHexStringFactory` are translated from the `structured/internal`
  package (src/unnamed/part_002 lines 57-234, src/unnamed/part_001).
-/

namespace DRA

/-- Suffix family of a quantity (`resource.Format`). -/
inductive Format where
  | decimalSI
  | binarySI
  | decimalExponent
deriving DecidableEq, Repr

/-- Model of `resource.Quantity` for integral values: `val` is the exact
numeric value in base units (the source stores it as an `int64Amount` /
`inf.Dec`, arbitrary precision, so `Cmp`, `Add` and `Sub` are exact; only
the `int64` extraction `Value()` wraps, see `wrapInt64`), `s` is the cached
canonical string, `format` the suffix family.  Go `==` on the struct
compares all fields (the `d.Dec` pointer is `nil` for int64-representable
values, the only ones compared by the claims). -/
structure Quantity where
  val : Int
  s : String
  format : Format
deriving DecidableEq, Repr

/-- `resource.Quantity.Cmp`: numeric three-way comparison. -/
def Quantity.Cmp (q y : Quantity) : Int :=
  if q.val < y.val then -1 else if q.val = y.val then 0 else 1

/-- `resource.Quantity.Add`: numeric addition; the source clears the cached
string (`q.s = ""`) and keeps the receiver's format. -/
def Quantity.Add (q y : Quantity) : Quantity :=
  { val := q.val + y.val, s := "", format := q.format }

/-- `resource.Quantity.Sub`: numeric subtraction; clears the cached string. -/
def Quantity.Sub (q y : Quantity) : Quantity :=
  { val := q.val - y.val, s := "", format := q.format }

/-- `resource.Quantity.IsZero`. -/
def Quantity.IsZero (q : Quantity) : Bool :=
  q.val = 0

/-- `resource.Quantity.DeepCopy`: for int64-representable values the copy has
exactly the same fields, so in a functional model it is the identity. -/
def Quantity.DeepCopy (q : Quantity) : Quantity := q

/-- Two's-complement wrap-around of a Go `int64` operation: the result of
every `int64` arithmetic step, reduced into `[-2^63, 2^63)`. -/
def wrapInt64 (x : Int) : Int :=
  (x + 9223372036854775808) % 18446744073709551616 - 9223372036854775808

/-- `resource.Quantity.Value()`: extraction of the numeric value as `int64`.
For a value beyond the `int64` range the source keeps the low 64 bits in
two's complement (`big.Int.Int64()`), modelled by `wrapInt64`; in-range
values are unchanged. -/
def Quantity.Value (q : Quantity) : Int := wrapInt64 q.val

/-- `resource.NewQuantity(value, format)`: fresh quantity, empty cached
string. -/
def NewQuantity (value : Int) (format : Format) : Quantity :=
  { val := value, s := "", format := format }

/-- A parsed binary-SI quantity of `n` gibibytes, as produced by
`resource.MustParse` on the string `s` (the cached string is preserved). -/
def GiQ (n : Int) (s : String) : Quantity :=
  { val := n * 1073741824, s := s, format := Format.binarySI }

/-! Association lists with pairwise-distinct keys model Go maps.
`alookup` is map indexing, `aset` is map assignment (replace the binding if
the key is present, otherwise add one), `aerase` is `delete`. -/

/-- Go map indexing `m[k]` with its `found` flag, as an `Option`. -/
def alookup {κ α : Type} [DecidableEq κ] : List (κ × α) → κ → Option α
  | [], _ => none
  | (k', v) :: rest, k => if k' = k then some v else alookup rest k

/-- Go map assignment `m[k] = v`: replace the binding of `k` if present,
otherwise add one. -/
def aset {κ α : Type} [DecidableEq κ] : List (κ × α) → κ → α → List (κ × α)
  | [], k, v => [(k, v)]
  | (k', v') :: rest, k, v =>
    if k' = k then (k, v) :: rest else (k', v') :: aset rest k v

/-- Go `delete(m, k)`: remove the binding of `k` if present. -/
def aerase {κ α : Type} [DecidableEq κ] : List (κ × α) → κ → List (κ × α)
  | [], _ => []
  | (k', v') :: rest, k => if k' = k then rest else (k', v') :: aerase rest k

/-- The keys of an association list. -/
def akeys {κ α : Type} (m : List (κ × α)) : List κ :=
  m.map Prod.fst

/-- A Go map has pairwise-distinct keys. -/
abbrev NodupKeys {κ α : Type} (m : List (κ × α)) : Prop :=
  (akeys m).Nodup

/-- `resourceapi.QualifiedName`: opaque case-sensitive string key. -/
abbrev QualifiedName := String

/-- `internal.ConsumedCapacity`: map from capacity name to consumed
quantity (`map[resourceapi.QualifiedName]*resource.Quantity`). -/
abbrev ConsumedCapacity := List (QualifiedName × Quantity)

/-- `internal.DeviceID`: triple of driver, pool and device identifiers. -/
structure DeviceID where
  driver : String
  pool : String
  device : String
deriving DecidableEq, Repr

/-- `internal.ConsumedCapacityCollection`: map from device identity to its
consumed capacity. -/
abbrev ConsumedCapacityCollection := List (DeviceID × ConsumedCapacity)

/-- `internal.ConsumedCapacity.Clone`: deep copy of every entry. -/
def ConsumedCapacity.Clone (s : ConsumedCapacity) : ConsumedCapacity :=
  s.map (fun p => (p.1, p.2.DeepCopy))

/-- `internal.ConsumedCapacity.Add`: the range loop over `addedCapacity`,
entry by entry; each name is added numerically onto the existing entry, or
creates a new entry from a deep copy. -/
def ConsumedCapacity.Add : ConsumedCapacity → ConsumedCapacity → ConsumedCapacity
  | s, [] => s
  | s, p :: rest =>
    ConsumedCapacity.Add
      (match alookup s p.1 with
       | some q => aset s p.1 (q.Add p.2.DeepCopy)
       | none => s ++ [(p.1, p.2.DeepCopy)])
      rest

/-- `internal.ConsumedCapacity.Sub`: the range loop over
`subtractedCapacity`; names present in `s` are subtracted numerically,
absent names are ignored. -/
def ConsumedCapacity.Sub : ConsumedCapacity → ConsumedCapacity → ConsumedCapacity
  | s, [] => s
  | s, p :: rest =>
    ConsumedCapacity.Sub
      (match alookup s p.1 with
       | some q => aset s p.1 (q.Sub p.2)
       | none => s)
      rest

/-- `internal.ConsumedCapacity.Empty`: true iff every entry is numerically
zero. -/
def ConsumedCapacity.Empty (s : ConsumedCapacity) : Bool :=
  s.all (fun p => p.2.IsZero)

/-- `internal.DeviceConsumedCapacity`: a device identity together with its
consumed capacity. -/
structure DeviceConsumedCapacity where
  deviceID : DeviceID
  consumedCapacity : ConsumedCapacity

/-- `internal.ConsumedCapacityCollection.Insert`: accumulate into the entry
of the device, or create it from a clone. -/
def ConsumedCapacityCollection.Insert (c : ConsumedCapacityCollection)
    (cap : DeviceConsumedCapacity) : ConsumedCapacityCollection :=
  match alookup c cap.deviceID with
  | some existing => aset c cap.deviceID (existing.Add cap.consumedCapacity)
  | none => c ++ [(cap.deviceID, cap.consumedCapacity.Clone)]

/-- `internal.ConsumedCapacityCollection.Remove`: subtract from the entry of
the device and delete the device key when the residual is empty; a missing
device key is a no-op. -/
def ConsumedCapacityCollection.Remove (c : ConsumedCapacityCollection)
    (cap : DeviceConsumedCapacity) : ConsumedCapacityCollection :=
  match alookup c cap.deviceID with
  | some existing =>
    let r := existing.Sub cap.consumedCapacity
    if r.Empty then aerase c cap.deviceID else aset c cap.deviceID r
  | none => c

/-! Policy data model, from `k8s.io/api/resource/v1beta1` as used by
`structured/internal/experimental/consumable_capacity.go`. -/

/-- `resourceapi.CapacitySharingPolicyRange`: `Min` required, `Max` and
`Step` optional pointers. -/
structure CapacitySharingPolicyRange where
  min : Quantity
  max : Option Quantity
  step : Option Quantity
deriving DecidableEq, Repr

/-- `resourceapi.CapacitySharingPolicy`: `Default` is a nullable pointer,
`ValidRange` a nullable sub-struct, `ValidValues` a nilable slice
(`none` models a nil slice). -/
structure CapacitySharingPolicy where
  default : Option Quantity
  validRange : Option CapacitySharingPolicyRange
  validValues : Option (List Quantity)
deriving DecidableEq, Repr

/-- `resourceapi.DeviceCapacity`: nominal value plus optional sharing
policy. -/
structure DeviceCapacity where
  value : Quantity
  sharingPolicy : Option CapacitySharingPolicy
deriving DecidableEq, Repr

/-- `resourceapi.CapacityRequirements.Requests` after the nil checks of the
callers: `none` models a nil `CapacityRequirements` pointer or a nil
`Requests` map (both make every per-name lookup fail). -/
abbrev CapacityRequests := Option (List (QualifiedName × Quantity))

/-- The per-name request extraction of `CmpRequestOverCapacity`: the block
guarded by `capacityRequests != nil && capacityRequests.Requests != nil`
followed by the map lookup. -/
def requestedValOf (capacityRequests : CapacityRequests)
    (name : QualifiedName) : Option Quantity :=
  match capacityRequests with
  | some requests => alookup requests name
  | none => none

/-- Result of `calculateConsumedCapacity`, whose Go return type is
`*resource.Quantity`: a non-nil quantity, the nil pointer (returned when the
policy has neither variant and the request is absent), or the run-time panic
raised inside the function when `consumable.Default` is dereferenced while
nil. -/
inductive CalcResult where
  | val (q : Quantity)
  | nilPtr
  | panicNilDefault
deriving DecidableEq, Repr

/-- `calculateConsumedCapacity` from
`structured/internal/experimental/consumable_capacity.go` (lines 102-129 of
the staging snapshot): the quantity actually charged for a request under a
sharing policy.  The step computation is `int64` arithmetic in the source,
so every operation wraps in two's complement (`wrapInt64`); division and
remainder truncate toward zero, modelled by `Int.tdiv` and `Int.tmod` (Go
defines `MinInt64 / -1 = MinInt64`, reproduced by the wrap of the quotient;
Go panics on a zero divisor, where `Int.tdiv _ 0 = 0` — no claim exercises
a zero step). -/
def calculateConsumedCapacity (requestedVal : Option Quantity)
    (consumable : CapacitySharingPolicy) : CalcResult :=
  match consumable.validRange with
  | some vr =>
    match requestedVal with
    | none =>
      match consumable.default with
      | some d => CalcResult.val d.DeepCopy
      | none => CalcResult.panicNilDefault
    | some r =>
      if r.Cmp vr.min < 0 then
        CalcResult.val vr.min.DeepCopy
      else
        match vr.step with
        | some st =>
          let requestedInt64 := r.Value
          let step := st.Value
          let min := vr.min.Value
          let added := wrapInt64 (requestedInt64 - min)
          let n := wrapInt64 (added.tdiv step)
          let md := added.tmod step
          let n' := if md ≠ 0 then wrapInt64 (n + 1) else n
          CalcResult.val (NewQuantity (wrapInt64 (min + wrapInt64 (step * n')))
            Format.binarySI)
        | none => CalcResult.val r
  | none =>
    match consumable.validValues with
    | some _ =>
      match requestedVal with
      | none =>
        match consumable.default with
        | some d => CalcResult.val d.DeepCopy
        | none => CalcResult.panicNilDefault
      | some r => CalcResult.val r
    | none =>
      match requestedVal with
      | some r => CalcResult.val r
      | none => CalcResult.nilPtr

/-- `violatesPolicy` from
`structured/internal/experimental/consumable_capacity.go` (lines 152-182 of
the staging snapshot).  The first accept compares with Go struct equality
(`requestedVal == *policy.Default`); ranging over a nil `ValidValues` slice
runs zero iterations.  The step check is `int64` arithmetic in the source
(subtraction wraps, `wrapInt64`); Go `%` truncates toward zero (`Int.tmod`;
Go panics on a zero step, where `Int.tmod _ 0 = added`; no claim exercises
a zero step). -/
def violatesPolicy (requestedVal : Quantity)
    (policy : Option CapacitySharingPolicy) : Bool :=
  match policy with
  | none => false
  | some p =>
    match p.default with
    | none => false
    | some d =>
      if requestedVal = d then false
      else
        match p.validRange with
        | some vr =>
          let stepViolation : Bool :=
            match vr.step with
            | some st =>
              let requestedInt64 := requestedVal.Value
              let step := st.Value
              let min := vr.min.Value
              let added := wrapInt64 (requestedInt64 - min)
              let md := added.tmod step
              md != 0
            | none => false
          match vr.max with
          | some mx =>
            if requestedVal.Cmp mx > 0 then true else stepViolation
          | none => stepViolation
        | none =>
          !((p.validValues.getD []).any (fun validVal => requestedVal.Cmp validVal = 0))

/-- `requestsContainNonExistCapacity`: true iff some requested name is not a
key of the device capacity map. -/
def requestsContainNonExistCapacity (capacityRequests : CapacityRequests)
    (capacity : List (QualifiedName × DeviceCapacity)) : Bool :=
  match capacityRequests with
  | none => false
  | some requests => requests.any (fun p => (alookup capacity p.1).isNone)

/-- `isConsumableCapacity`: the capacity has a sharing policy. -/
def isConsumableCapacity (cap : DeviceCapacity) : Bool :=
  cap.sharingPolicy.isSome

/-- Outcome of `CmpRequestOverCapacity`, whose Go return type is
`(bool, error)`: fit `(true, nil)`, no-fit `(false, nil)`, the two error
returns, and the run-time panics (`panicNilDeref` is the dereference
`*consumedCapacity` of the nil pointer returned by
`calculateConsumedCapacity`). -/
inductive CmpOutcome where
  | fit
  | noFit
  | errNonExistCapacity
  | errNoGuarantee
  | panicNilDeref
  | panicNilDefault
deriving DecidableEq, Repr

/-- The body of one iteration of the capacity loop of
`CmpRequestOverCapacity`: either an early return (`Sum.inl`) or the updated
`clone` map handed to the next iteration (`Sum.inr`).  In the consumable
branch the source stores the consumed quantity into `clone[name]` (creating
the entry or adding onto it), then adds the in-flight quantity for the name
if any, then compares `clone[name]` against the nominal value; `candidate`
below is exactly the final `clone[name]`. -/
def processCapacity (clone : ConsumedCapacity)
    (capacityRequests : CapacityRequests)
    (allowMultipleAllocations : Option Bool)
    (allocatingCapacity : Option ConsumedCapacity)
    (name : QualifiedName) (cap : DeviceCapacity) :
    CmpOutcome ⊕ ConsumedCapacity :=
  let requestedValPtr := requestedValOf capacityRequests name
  match cap.sharingPolicy with
  | some pol =>
    match calculateConsumedCapacity requestedValPtr pol with
    | CalcResult.panicNilDefault => Sum.inl CmpOutcome.panicNilDefault
    | CalcResult.nilPtr => Sum.inl CmpOutcome.panicNilDeref
    | CalcResult.val consumedCapacity =>
      if violatesPolicy consumedCapacity (some pol) then
        Sum.inl CmpOutcome.noFit
      else
        let afterConsumed :=
          match alookup clone name with
          | some q => q.Add consumedCapacity
          | none => consumedCapacity
        let candidate :=
          match allocatingCapacity with
          | some allocating =>
            match alookup allocating name with
            | some allocatingVal => afterConsumed.Add allocatingVal
            | none => afterConsumed
          | none => afterConsumed
        if candidate.Cmp cap.value > 0 then
          Sum.inl CmpOutcome.noFit
        else
          Sum.inr (aset clone name candidate)
  | none =>
    match requestedValPtr with
    | some requestedVal =>
      if allowMultipleAllocations = some true then
        Sum.inl CmpOutcome.errNoGuarantee
      else if requestedVal.Cmp cap.value > 0 then
        Sum.inl CmpOutcome.noFit
      else
        Sum.inr clone
    | none => Sum.inr clone

/-- The capacity loop of `CmpRequestOverCapacity`; Go iterates the map in
unspecified order, modelled by the list order. -/
def cmpLoop (clone : ConsumedCapacity) (capacityRequests : CapacityRequests)
    (allowMultipleAllocations : Option Bool)
    (allocatingCapacity : Option ConsumedCapacity) :
    List (QualifiedName × DeviceCapacity) → CmpOutcome
  | [] => CmpOutcome.fit
  | (name, cap) :: rest =>
    match processCapacity clone capacityRequests allowMultipleAllocations
        allocatingCapacity name cap with
    | Sum.inl outcome => outcome
    | Sum.inr clone' =>
      cmpLoop clone' capacityRequests allowMultipleAllocations
        allocatingCapacity rest

/-- `CmpRequestOverCapacity` from
`structured/internal/experimental/consumable_capacity.go`, following the
variant at src/unnamed/part_002 lines 705-757 that carries the
`allowMultipleAllocations` guard on non-consumable capacities (the staging
snapshot of the function, lines 34-78, is identical except that it omits
that guard).  `allocatingCapacity` is the in-flight consumption; `none`
models a nil map.  The `DeviceCapacity` conversion step cannot fail for the
shapes modelled here and is omitted. -/
def CmpRequestOverCapacity (currentConsumedCapacity : ConsumedCapacity)
    (capacityRequests : CapacityRequests)
    (allowMultipleAllocations : Option Bool)
    (capacity : List (QualifiedName × DeviceCapacity))
    (allocatingCapacity : Option ConsumedCapacity) : CmpOutcome :=
  if requestsContainNonExistCapacity capacityRequests capacity then
    CmpOutcome.errNonExistCapacity
  else
    cmpLoop currentConsumedCapacity.Clone capacityRequests
      allowMultipleAllocations allocatingCapacity capacity

/-! Share-ID factory, from `structured/internal` (src/unnamed/part_002
lines 176-234; src/unnamed/part_001 is the same code under the name
`ShareUID`).  The mutual-exclusion guard serialises the methods, so each is
modelled as a pure state transformer.  The `crypto/rand` draws are modelled
by an input stream `draws : Nat → String` giving the hex encoding of the
`nBytes` random bytes of each successive call to `rand.Read` (an RNG
failure return is not modelled; the stream always yields). -/

/-- `internal.SharedDeviceID`: the composite key scoping a share ID by
driver, pool and device. -/
structure SharedDeviceID where
  driver : String
  pool : String
  device : String
  shareID : String
deriving DecidableEq, Repr

/-- `internal.MakeSharedDeviceID`. -/
def MakeSharedDeviceID (deviceID : DeviceID) (shareID : String) : SharedDeviceID :=
  { driver := deviceID.driver, pool := deviceID.pool,
    device := deviceID.device, shareID := shareID }

/-- `internal.UniqueHexStringFactory`: the used-ID set and the byte length
of generated IDs (the mutex is a non-state concern). -/
structure UniqueHexStringFactory where
  usedIDs : Finset SharedDeviceID
  nBytes : Nat

/-- Result of `GenerateNewShareID`: the returned share ID (`none` is the
exhaustion error), the factory state after the call, and the number of
random draws the loop made (an observation used to state attempt
bounds). -/
structure GenResult where
  shareID : Option String
  factory : UniqueHexStringFactory
  drawCount : Nat

/-- The retry loop of `GenerateNewShareID`: at iteration `count` it draws
`draws count`; an unused composite key is inserted and returned, otherwise
`count` is incremented and the loop exits with the exhaustion error once
`count > maxTry`.  The loop makes at most `maxTry.toNat + 1` draws, so that
fuel makes the recursion structural; `genLoop_fuel_irrelevant` below shows
the fuel-exhausted branch is never taken from the entry point. -/
def genLoopAux (dev : DeviceID) (draws : Nat → String) (maxTry : Int) :
    Finset SharedDeviceID → Nat → Nat → Option String × Finset SharedDeviceID × Nat
  | used, count, 0 => (none, used, count)
  | used, count, fuel + 1 =>
    let b := draws count
    let sharedDeviceID := MakeSharedDeviceID dev b
    if sharedDeviceID ∈ used then
      if (count + 1 : Int) > maxTry then (none, used, count + 1)
      else genLoopAux dev draws maxTry used (count + 1) fuel
    else (some b, insert sharedDeviceID used, count + 1)

/-- `internal.UniqueHexStringFactory.GenerateNewShareID` (src/unnamed/part_002
lines 204-225). -/
def GenerateNewShareID (f : UniqueHexStringFactory) (deviceID : DeviceID)
    (maxTry : Int) (draws : Nat → String) : GenResult :=
  let r := genLoopAux deviceID draws maxTry f.usedIDs 0 (maxTry.toNat + 1)
  { shareID := r.1, factory := { f with usedIDs := r.2.1 }, drawCount := r.2.2 }

/-- `internal.UniqueHexStringFactory.DeleteShareID` (src/unnamed/part_002
lines 227-234): the source deletes the composite key only when the
`exists` lookup flag is false. -/
def DeleteShareID (f : UniqueHexStringFactory) (deviceID : DeviceID)
    (shareID : String) : UniqueHexStringFactory :=
  let sharedDeviceID := MakeSharedDeviceID deviceID shareID
  if sharedDeviceID ∈ f.usedIDs then f
  else { f with usedIDs := f.usedIDs.erase sharedDeviceID }

/-- A sequence of `GenerateNewShareID` calls on one device with no
intervening release, each with its own draw stream; returns the per-call
results and the final factory state. -/
def runGenerates (f : UniqueHexStringFactory) (deviceID : DeviceID)
    (maxTry : Int) : List (Nat → String) → List (Option String) × UniqueHexStringFactory
  | [] => ([], f)
  | d :: ds =>
    let r := GenerateNewShareID f deviceID maxTry d
    let rest := runGenerates r.factory deviceID maxTry ds
    (r.shareID :: rest.1, rest.2)

/-! Observation functions and spec-side definitions used to state the
claims. -/

/-- `ConsumedCapacityCollection.Clone` (src/unnamed/part_002 lines
117-123). -/
def ConsumedCapacityCollection.Clone (c : ConsumedCapacityCollection) :
    ConsumedCapacityCollection :=
  c.map (fun p => (p.1, p.2.Clone))

/-- Numeric value of an optional quantity, an absent one counting as
zero. -/
def optVal : Option Quantity → Int
  | some q => q.val
  | none => 0

/-- Numeric value held by a consumed-capacity map at a name (zero when
absent). -/
def ccVal (s : ConsumedCapacity) (name : QualifiedName) : Int :=
  optVal (alookup s name)

/-- Numeric value held by a collection at a device and name (zero when
either key is absent). -/
def collVal (c : ConsumedCapacityCollection) (dev : DeviceID)
    (name : QualifiedName) : Int :=
  match alookup c dev with
  | some cc => ccVal cc name
  | none => 0

/-- The equality relation asserted by the additive-inverse claim: same
capacity-name entries on both sides and numerically equal values
(no extra device keys or capacity-name entries). -/
def ConsumedCapacity.equivStrict (a b : ConsumedCapacity) : Bool :=
  a.all (fun p =>
    match alookup b p.1 with
    | some q => p.2.Cmp q == 0
    | none => false)
  && b.all (fun p => (alookup a p.1).isSome)

/-- Strict per-device equality of two collections: same device keys, and
per device the same capacity-name entries with numerically equal values. -/
def ConsumedCapacityCollection.equivStrict
    (c1 c2 : ConsumedCapacityCollection) : Bool :=
  c1.all (fun p =>
    match alookup c2 p.1 with
    | some cc => p.2.equivStrict cc
    | none => false)
  && c2.all (fun p => (alookup c1 p.1).isSome)

/-- Spec-side ceiling division `⌈a / b⌉`, exact for a positive divisor
(Euclidean division). -/
def ceilDiv (a b : Int) : Int :=
  (a + b - 1) / b

/-- Exactly one of the two policy variants is populated (the validator's
`Forbidden` check rejects both set; the spec's data model requires one). -/
abbrev exactlyOnePolicyVariant (pol : CapacitySharingPolicy) : Prop :=
  (pol.validRange.isSome = true ∧ pol.validValues = none) ∨
  (pol.validRange = none ∧ pol.validValues.isSome = true)

/-- `resource.MustParse "1Gi"`. -/
def q1Gi : Quantity := GiQ 1 "1Gi"

/-- `resource.MustParse "2Gi"`. -/
def q2Gi : Quantity := GiQ 2 "2Gi"

/-- `resource.MustParse "9Gi"`. -/
def q9Gi : Quantity := GiQ 9 "9Gi"

/-- `resource.MustParse "10Gi"`. -/
def q10Gi : Quantity := GiQ 10 "10Gi"

/-- The S5 sharing policy `ValidRange{min: 1Gi, default: 1Gi}`. -/
def s5Policy : CapacitySharingPolicy :=
  { default := some q1Gi,
    validRange := some { min := q1Gi, max := none, step := none },
    validValues := none }

/-- The S5 device capacity map: one capacity `c` of nominal value 10Gi
with the S5 policy. -/
def s5Capacity : List (QualifiedName × DeviceCapacity) :=
  [("c", { value := q10Gi, sharingPolicy := some s5Policy })]

/-- A step policy `ValidRange{min: 1Gi, step: 2Gi, default: 1Gi}` (the S3
shape used by the grid-closure examples). -/
def stepPolicy : CapacitySharingPolicy :=
  { default := some q1Gi,
    validRange := some { min := q1Gi, max := none, step := some q2Gi },
    validValues := none }

/-- `resource.MustParse "0"`. -/
def qZero : Quantity :=
  { val := 0, s := "0", format := Format.decimalSI }

/-- `resource.MustParse "3"`. -/
def qThree : Quantity :=
  { val := 3, s := "3", format := Format.decimalSI }

/-- `resource.MustParse "9223372036854775807"`: the largest `int64` value,
`2^63 - 1`. -/
def qMaxInt64 : Quantity :=
  { val := 9223372036854775807, s := "9223372036854775807",
    format := Format.decimalSI }

/-- The step policy `ValidRange{min: 0, step: 3, default: 3}` of the
int64-overflow example. -/
def wrapStepPolicy : CapacitySharingPolicy :=
  { default := some qThree,
    validRange := some { min := qZero, max := none, step := some qThree },
    validValues := none }

/-- The test device identity `driver-a/pool-1/device-1`. -/
def dev1 : DeviceID := { driver := "driver-a", pool := "pool-1", device := "device-1" }

/-! Association-list lemmas. -/

theorem akeys_nil {κ α : Type} : akeys ([] : List (κ × α)) = [] := rfl

theorem akeys_cons {κ α : Type} (p : κ × α) (rest : List (κ × α)) :
    akeys (p :: rest) = p.1 :: akeys rest := rfl

theorem akeys_append {κ α : Type} (m m' : List (κ × α)) :
    akeys (m ++ m') = akeys m ++ akeys m' := by
  simp [akeys]

theorem mem_akeys_of_mem {κ α : Type} {m : List (κ × α)} {p : κ × α}
    (h : p ∈ m) : p.1 ∈ akeys m :=
  List.mem_map_of_mem Prod.fst h

theorem nodupKeys_cons {κ α : Type} {p : κ × α} {rest : List (κ × α)} :
    NodupKeys (p :: rest) ↔ p.1 ∉ akeys rest ∧ NodupKeys rest := by
  rw [NodupKeys, akeys_cons, List.nodup_cons]

theorem alookup_aset_self {κ α : Type} [DecidableEq κ] (m : List (κ × α)) (k : κ) (v : α) :
    alookup (aset m k v) k = some v := by
  induction m with
  | nil => simp [aset, alookup]
  | cons p rest ih =>
    obtain ⟨k', v'⟩ := p
    by_cases h : k' = k
    · simp [aset, h, alookup]
    · simp [aset, h, alookup, ih]

theorem alookup_aset_of_ne {κ α : Type} [DecidableEq κ] (m : List (κ × α))
    {k₀ k : κ} (v : α) (h : k₀ ≠ k) :
    alookup (aset m k v) k₀ = alookup m k₀ := by
  have h' : k ≠ k₀ := fun he => h he.symm
  induction m with
  | nil => simp [aset, alookup, h']
  | cons p rest ih =>
    obtain ⟨k', v'⟩ := p
    by_cases hk : k' = k
    · subst hk
      simp [aset, alookup, h']
    · simp [aset, hk, alookup, ih]

theorem alookup_eq_none_iff {κ α : Type} [DecidableEq κ] (m : List (κ × α)) (k : κ) :
    alookup m k = none ↔ k ∉ akeys m := by
  induction m with
  | nil => simp [alookup, akeys]
  | cons p rest ih =>
    obtain ⟨k', v'⟩ := p
    rw [akeys_cons]
    by_cases h : k' = k
    · subst h
      simp [alookup]
    · simp only [alookup, if_neg h]
      rw [ih]
      constructor
      · intro hk hmem
        rcases List.mem_cons.mp hmem with h1 | h1
        · exact h h1.symm
        · exact hk h1
      · intro hk h1
        exact hk (List.mem_cons.mpr (Or.inr h1))

theorem mem_akeys_of_alookup {κ α : Type} [DecidableEq κ] {m : List (κ × α)}
    {k : κ} {v : α} (h : alookup m k = some v) : k ∈ akeys m := by
  by_contra hk
  rw [← alookup_eq_none_iff] at hk
  rw [h] at hk
  exact Option.noConfusion hk

theorem mem_of_alookup {κ α : Type} [DecidableEq κ] {m : List (κ × α)}
    {k : κ} {v : α} (h : alookup m k = some v) : (k, v) ∈ m := by
  induction m with
  | nil => simp [alookup] at h
  | cons p rest ih =>
    obtain ⟨k', v'⟩ := p
    by_cases hk : k' = k
    · subst hk
      simp [alookup] at h
      simp [h]
    · simp only [alookup, if_neg hk] at h
      exact List.mem_cons.mpr (Or.inr (ih h))

theorem alookup_of_mem_nodup {κ α : Type} [DecidableEq κ] {m : List (κ × α)}
    {k : κ} {v : α} (hm : NodupKeys m) (h : (k, v) ∈ m) : alookup m k = some v := by
  induction m with
  | nil => simp at h
  | cons p rest ih =>
    obtain ⟨k', v'⟩ := p
    rw [nodupKeys_cons] at hm
    rcases List.mem_cons.mp h with h1 | h1
    · injection h1 with h1a h1b
      subst h1a
      subst h1b
      simp [alookup]
    · have hk : k' ≠ k := by
        intro he
        subst he
        have hmem := mem_akeys_of_mem h1
        exact hm.1 hmem
      simp only [alookup, if_neg hk]
      exact ih hm.2 h1

theorem alookup_append_of_none {κ α : Type} [DecidableEq κ] {m : List (κ × α)}
    (m' : List (κ × α)) {k : κ} (h : alookup m k = none) :
    alookup (m ++ m') k = alookup m' k := by
  induction m with
  | nil => simp
  | cons p rest ih =>
    obtain ⟨k', v'⟩ := p
    by_cases hk : k' = k
    · simp [alookup, hk] at h
    · simp only [alookup, if_neg hk] at h
      simp only [List.cons_append, alookup, if_neg hk]
      exact ih h

theorem alookup_append_of_some {κ α : Type} [DecidableEq κ] {m : List (κ × α)}
    (m' : List (κ × α)) {k : κ} {v : α} (h : alookup m k = some v) :
    alookup (m ++ m') k = some v := by
  induction m with
  | nil => simp [alookup] at h
  | cons p rest ih =>
    obtain ⟨k', v'⟩ := p
    by_cases hk : k' = k
    · simp only [alookup, if_pos hk] at h
      simp only [List.cons_append, alookup, if_pos hk]
      exact h
    · simp only [alookup, if_neg hk] at h
      simp only [List.cons_append, alookup, if_neg hk]
      exact ih h

theorem alookup_append_singleton_ne {κ α : Type} [DecidableEq κ]
    (m : List (κ × α)) {k₀ k : κ} (v : α) (h : k₀ ≠ k) :
    alookup (m ++ [(k, v)]) k₀ = alookup m k₀ := by
  have h' : k ≠ k₀ := fun he => h he.symm
  cases hm : alookup m k₀ with
  | some w => exact alookup_append_of_some _ hm
  | none =>
    have e1 : alookup (m ++ [(k, v)]) k₀ = alookup [(k, v)] k₀ :=
      alookup_append_of_none _ hm
    rw [e1]
    simp [alookup, h']

theorem akeys_aset_of_mem {κ α : Type} [DecidableEq κ] {m : List (κ × α)}
    {k : κ} (v : α) (h : k ∈ akeys m) : akeys (aset m k v) = akeys m := by
  induction m with
  | nil => simp [akeys] at h
  | cons p rest ih =>
    obtain ⟨k', v'⟩ := p
    by_cases hk : k' = k
    · subst hk
      simp [aset, akeys_cons]
    · rw [akeys_cons] at h
      rcases List.mem_cons.mp h with h1 | h1
      · exact absurd h1.symm hk
      · simp only [aset, if_neg hk, akeys_cons]
        rw [ih h1]

theorem mem_akeys_aset {κ α : Type} [DecidableEq κ] (m : List (κ × α))
    (k₀ k : κ) (v : α) : k₀ ∈ akeys (aset m k v) ↔ k₀ ∈ akeys m ∨ k₀ = k := by
  induction m with
  | nil =>
    simp [aset, akeys_cons, akeys_nil]
  | cons p rest ih =>
    obtain ⟨k', v'⟩ := p
    by_cases hk : k' = k
    · have e : aset ((k', v') :: rest) k v = (k, v) :: rest := by
        simp [aset, hk]
      rw [e, akeys_cons, akeys_cons]
      clear ih
      simp only [List.mem_cons]
      rw [hk]
      tauto
    · have e : aset ((k', v') :: rest) k v = (k', v') :: aset rest k v := by
        simp [aset, hk]
      rw [e, akeys_cons, akeys_cons]
      simp only [List.mem_cons, ih]
      tauto

theorem alookup_aerase_of_ne {κ α : Type} [DecidableEq κ] (m : List (κ × α))
    {k₀ k : κ} (h : k₀ ≠ k) : alookup (aerase m k) k₀ = alookup m k₀ := by
  have h' : k ≠ k₀ := fun he => h he.symm
  induction m with
  | nil => simp [aerase]
  | cons p rest ih =>
    obtain ⟨k', v'⟩ := p
    by_cases hk : k' = k
    · subst hk
      simp [aerase, alookup, h']
    · simp [aerase, hk, alookup, ih]

theorem alookup_aerase_self {κ α : Type} [DecidableEq κ] {m : List (κ × α)}
    (k : κ) (hm : NodupKeys m) : alookup (aerase m k) k = none := by
  induction m with
  | nil => simp [aerase, alookup]
  | cons p rest ih =>
    obtain ⟨k', v'⟩ := p
    rw [nodupKeys_cons] at hm
    by_cases hk : k' = k
    · subst hk
      simp only [aerase, if_pos rfl]
      rw [alookup_eq_none_iff]
      exact hm.1
    · simp only [aerase, if_neg hk, alookup, if_neg hk]
      exact ih hm.2

theorem aerase_append_singleton {κ α : Type} [DecidableEq κ] {m : List (κ × α)}
    {k : κ} (v : α) (h : k ∉ akeys m) : aerase (m ++ [(k, v)]) k = m := by
  induction m with
  | nil => simp [aerase]
  | cons p rest ih =>
    obtain ⟨k', v'⟩ := p
    rw [akeys_cons] at h
    have h1 : ¬k = k' := fun he => h (List.mem_cons.mpr (Or.inl he))
    have h2 : k ∉ akeys rest := fun he => h (List.mem_cons.mpr (Or.inr he))
    have h1' : ¬k' = k := fun he => h1 he.symm
    simp only [List.cons_append, aerase, if_neg h1']
    exact congrArg (List.cons (k', v')) (ih h2)


/-! Consumed-capacity map lemmas. -/

theorem quantity_deepCopy_eq (q : Quantity) : q.DeepCopy = q := rfl

theorem alookup_cons {κ α : Type} [DecidableEq κ] (p : κ × α) (rest : List (κ × α)) (k : κ) :
    alookup (p :: rest) k = if p.1 = k then some p.2 else alookup rest k := by
  obtain ⟨a, b⟩ := p
  rfl

theorem consumedCapacity_clone_eq (s : ConsumedCapacity) : s.Clone = s := by
  simp [ConsumedCapacity.Clone, Quantity.DeepCopy]

theorem collection_clone_eq (c : ConsumedCapacityCollection) : c.Clone = c := by
  simp [ConsumedCapacityCollection.Clone, consumedCapacity_clone_eq]

theorem ccVal_Add : ∀ (a s : ConsumedCapacity) (k : QualifiedName), NodupKeys a →
    ccVal (s.Add a) k = ccVal s k + ccVal a k := by
  intro a
  induction a with
  | nil =>
    intro s k _
    simp [ConsumedCapacity.Add, ccVal, alookup, optVal]
  | cons p rest ih =>
    intro s k ha
    rw [nodupKeys_cons] at ha
    obtain ⟨hp, hrest⟩ := ha
    simp only [ConsumedCapacity.Add]
    rw [ih _ k hrest]
    have hstep : ccVal (match alookup s p.1 with
        | some q => aset s p.1 (q.Add p.2.DeepCopy)
        | none => s ++ [(p.1, p.2.DeepCopy)]) k
        = ccVal s k + (if p.1 = k then p.2.val else 0) := by
      cases hs : alookup s p.1 with
      | some q =>
        by_cases hk : p.1 = k
        · rw [← hk]
          simp [ccVal, alookup_aset_self, optVal, Quantity.Add, Quantity.DeepCopy, hs]
        · have hk' : k ≠ p.1 := fun he => hk he.symm
          simp [ccVal, alookup_aset_of_ne _ _ hk', hk]
      | none =>
        by_cases hk : p.1 = k
        · rw [← hk]
          have e1 : alookup (s ++ [(p.1, p.2)]) p.1 = some p.2 := by
            rw [alookup_append_of_none _ hs, alookup_cons]
            simp
          rw [quantity_deepCopy_eq]
          simp only [ccVal]
          rw [e1, hs]
          simp [optVal]
        · have hk' : k ≠ p.1 := fun he => hk he.symm
          rw [ccVal, alookup_append_singleton_ne _ _ hk']
          simp [ccVal, hk]
    rw [hstep]
    simp only [ccVal]
    rw [alookup_cons]
    by_cases hk : p.1 = k
    · have h0 : alookup rest k = none := by
        rw [alookup_eq_none_iff, ← hk]
        exact hp
      simp [hk, h0, optVal]
    · simp [hk]

theorem mem_akeys_Add : ∀ (a s : ConsumedCapacity) (k : QualifiedName),
    k ∈ akeys (s.Add a) ↔ k ∈ akeys s ∨ k ∈ akeys a := by
  intro a
  induction a with
  | nil =>
    intro s k
    simp [ConsumedCapacity.Add, akeys]
  | cons p rest ih =>
    intro s k
    simp only [ConsumedCapacity.Add]
    rw [ih]
    have hstep : k ∈ akeys (match alookup s p.1 with
        | some q => aset s p.1 (q.Add p.2.DeepCopy)
        | none => s ++ [(p.1, p.2.DeepCopy)]) ↔ k ∈ akeys s ∨ k = p.1 := by
      cases hs : alookup s p.1 with
      | some q => exact mem_akeys_aset _ _ _ _
      | none =>
        rw [akeys_append, List.mem_append, akeys_cons, akeys_nil]
        simp
    rw [hstep, akeys_cons, List.mem_cons]
    tauto

theorem akeys_Sub : ∀ (a s : ConsumedCapacity), akeys (s.Sub a) = akeys s := by
  intro a
  induction a with
  | nil => intro s; rfl
  | cons p rest ih =>
    intro s
    simp only [ConsumedCapacity.Sub]
    rw [ih]
    cases hs : alookup s p.1 with
    | some q => exact akeys_aset_of_mem _ (mem_akeys_of_alookup hs)
    | none => rfl

theorem ccVal_Sub : ∀ (a s : ConsumedCapacity) (k : QualifiedName), NodupKeys a →
    k ∈ akeys s → ccVal (s.Sub a) k = ccVal s k - ccVal a k := by
  intro a
  induction a with
  | nil =>
    intro s k _ _
    simp [ConsumedCapacity.Sub, ccVal, alookup, optVal]
  | cons p rest ih =>
    intro s k ha hk
    rw [nodupKeys_cons] at ha
    obtain ⟨hp, hrest⟩ := ha
    simp only [ConsumedCapacity.Sub]
    have hkeys : akeys (match alookup s p.1 with
        | some q => aset s p.1 (q.Sub p.2)
        | none => s) = akeys s := by
      cases hs : alookup s p.1 with
      | some q => exact akeys_aset_of_mem _ (mem_akeys_of_alookup hs)
      | none => rfl
    rw [ih _ k hrest (by rw [hkeys]; exact hk)]
    have hstep : ccVal (match alookup s p.1 with
        | some q => aset s p.1 (q.Sub p.2)
        | none => s) k
        = ccVal s k - (if p.1 = k then p.2.val else 0) := by
      cases hs : alookup s p.1 with
      | some q =>
        by_cases hkp : p.1 = k
        · rw [← hkp]
          simp [ccVal, alookup_aset_self, optVal, Quantity.Sub, hs]
        · have hk' : k ≠ p.1 := fun he => hkp he.symm
          simp [ccVal, alookup_aset_of_ne _ _ hk', hkp]
      | none =>
        by_cases hkp : p.1 = k
        · exfalso
          rw [← hkp] at hk
          exact (alookup_eq_none_iff _ _).mp hs hk
        · simp [hkp]
    rw [hstep]
    simp only [ccVal]
    rw [alookup_cons]
    by_cases hkp : p.1 = k
    · have h0 : alookup rest k = none := by
        rw [alookup_eq_none_iff, ← hkp]
        exact hp
      simp [hkp, h0, optVal]
    · simp [hkp]

theorem empty_imp_ccVal {s : ConsumedCapacity} (h : s.Empty = true)
    (k : QualifiedName) : ccVal s k = 0 := by
  rw [ConsumedCapacity.Empty, List.all_eq_true] at h
  rw [ccVal]
  cases hs : alookup s k with
  | none => rfl
  | some q =>
    have hmem := mem_of_alookup hs
    have hz := h _ hmem
    simp only [Quantity.IsZero, decide_eq_true_eq] at hz
    simp [optVal, hz]

theorem ccVal_imp_empty {s : ConsumedCapacity} (hs : NodupKeys s)
    (h : ∀ k, ccVal s k = 0) : s.Empty = true := by
  rw [ConsumedCapacity.Empty, List.all_eq_true]
  intro p hp
  obtain ⟨k₁, q₁⟩ := p
  have hl : alookup s k₁ = some q₁ := alookup_of_mem_nodup hs hp
  have hv := h k₁
  rw [ccVal, hl] at hv
  simp only [optVal] at hv
  simp [Quantity.IsZero, hv]

theorem sub_self_empty {a : ConsumedCapacity} (ha : NodupKeys a) :
    (a.Sub a).Empty = true := by
  apply ccVal_imp_empty
  · rw [NodupKeys, akeys_Sub]
    exact ha
  · intro k
    by_cases hk : k ∈ akeys a
    · rw [ccVal_Sub _ _ _ ha hk]
      omega
    · have hnone : alookup (a.Sub a) k = none := by
        rw [alookup_eq_none_iff, akeys_Sub]
        exact hk
      rw [ccVal, hnone]
      rfl


/-! Insert/remove round trip on the collection. -/

theorem collVal_insert_remove (C : ConsumedCapacityCollection)
    (d : DeviceConsumedCapacity) (hC : NodupKeys C)
    (hd : NodupKeys d.consumedCapacity) (dev : DeviceID) (k : QualifiedName) :
    collVal ((C.Insert d).Remove d) dev k = collVal C dev k := by
  cases hid : alookup C d.deviceID with
  | none =>
    have hIns : C.Insert d = C ++ [(d.deviceID, d.consumedCapacity)] := by
      unfold ConsumedCapacityCollection.Insert
      rw [hid, consumedCapacity_clone_eq]
    have hlook : alookup (C ++ [(d.deviceID, d.consumedCapacity)]) d.deviceID
        = some d.consumedCapacity := by
      rw [alookup_append_of_none _ hid, alookup_cons]
      simp
    have hRem : (C.Insert d).Remove d = C := by
      rw [hIns]
      unfold ConsumedCapacityCollection.Remove
      rw [hlook]
      simp [sub_self_empty hd,
        aerase_append_singleton _ ((alookup_eq_none_iff _ _).mp hid)]
    rw [hRem]
  | some cc0 =>
    have hIns : C.Insert d = aset C d.deviceID (cc0.Add d.consumedCapacity) := by
      unfold ConsumedCapacityCollection.Insert
      rw [hid]
    have hlook : alookup (aset C d.deviceID (cc0.Add d.consumedCapacity)) d.deviceID
        = some (cc0.Add d.consumedCapacity) := alookup_aset_self _ _ _
    have hr : ∀ k', ccVal ((cc0.Add d.consumedCapacity).Sub d.consumedCapacity) k'
        = ccVal cc0 k' := by
      intro k'
      by_cases hk' : k' ∈ akeys (cc0.Add d.consumedCapacity)
      · rw [ccVal_Sub _ _ _ hd hk', ccVal_Add _ _ _ hd]
        omega
      · have h1 : alookup ((cc0.Add d.consumedCapacity).Sub d.consumedCapacity) k' = none := by
          rw [alookup_eq_none_iff, akeys_Sub]
          exact hk'
        have h2 : alookup cc0 k' = none := by
          rw [alookup_eq_none_iff]
          intro hmem
          exact hk' ((mem_akeys_Add _ _ _).mpr (Or.inl hmem))
        rw [ccVal, h1, ccVal, h2]
    have hCk : d.deviceID ∈ akeys C := mem_akeys_of_alookup hid
    have hnodupA : NodupKeys (aset C d.deviceID (cc0.Add d.consumedCapacity)) := by
      rw [NodupKeys, akeys_aset_of_mem _ hCk]
      exact hC
    by_cases hE : ((cc0.Add d.consumedCapacity).Sub d.consumedCapacity).Empty = true
    · have hRem : (C.Insert d).Remove d
          = aerase (aset C d.deviceID (cc0.Add d.consumedCapacity)) d.deviceID := by
        rw [hIns]
        unfold ConsumedCapacityCollection.Remove
        rw [hlook]
        simp [hE]
      rw [hRem]
      by_cases hdev : dev = d.deviceID
      · have h0 : ccVal cc0 k = 0 := by
          rw [← hr k]
          exact empty_imp_ccVal hE k
        rw [hdev]
        simp only [collVal]
        rw [alookup_aerase_self _ hnodupA, hid]
        simpa using h0.symm
      · simp only [collVal]
        rw [alookup_aerase_of_ne _ hdev, alookup_aset_of_ne _ _ hdev]
    · have hRem : (C.Insert d).Remove d
          = aset (aset C d.deviceID (cc0.Add d.consumedCapacity)) d.deviceID
              ((cc0.Add d.consumedCapacity).Sub d.consumedCapacity) := by
        rw [hIns]
        unfold ConsumedCapacityCollection.Remove
        rw [hlook]
        simp [hE]
      rw [hRem]
      by_cases hdev : dev = d.deviceID
      · rw [hdev]
        simp only [collVal]
        rw [alookup_aset_self, hid]
        simpa using hr k
      · simp only [collVal]
        rw [alookup_aset_of_ne _ _ hdev, alookup_aset_of_ne _ _ hdev]


/-! Step-rounding arithmetic. -/

theorem ceil_step (added st : Int) (h0 : 0 ≤ added) (hst : 0 < st) :
    (if added.tmod st ≠ 0 then added.tdiv st + 1 else added.tdiv st)
      = ceilDiv added st := by
  have hstne : st ≠ 0 := ne_of_gt hst
  have htd : added.tdiv st = added / st := Int.tdiv_eq_ediv h0 (le_of_lt hst)
  have htm : added.tmod st = added % st := Int.tmod_eq_emod h0 (le_of_lt hst)
  have hdm := Int.ediv_add_emod added st
  have hr0 : 0 ≤ added % st := Int.emod_nonneg added hstne
  have hrlt : added % st < st := Int.emod_lt_of_pos added hst
  rw [htd, htm, ceilDiv]
  by_cases hr : added % st = 0
  · rw [if_neg (by simpa using hr)]
    have e : added + st - 1 = (st - 1) + st * (added / st) := by omega
    have e2 : (st - 1 + st * (added / st)) / st = (st - 1) / st + added / st :=
      Int.add_mul_ediv_left _ _ hstne
    have e3 : (st - 1) / st = 0 := Int.ediv_eq_zero_of_lt (by omega) (by omega)
    rw [e, e2, e3]
    omega
  · rw [if_pos (by simpa using hr)]
    have e : added + st - 1 = ((added % st - 1) + st * 1) + st * (added / st) := by
      omega
    have e2 : (((added % st - 1) + st * 1) + st * (added / st)) / st
        = ((added % st - 1) + st * 1) / st + added / st :=
      Int.add_mul_ediv_left _ _ hstne
    have e4 : ((added % st - 1) + st * 1) / st = (added % st - 1) / st + 1 :=
      Int.add_mul_ediv_left _ _ hstne
    have e5 : (added % st - 1) / st = 0 := Int.ediv_eq_zero_of_lt (by omega) (by omega)
    rw [e, e2, e4, e5]
    omega

theorem wrapInt64_eq_of_range (x : Int) (h1 : -9223372036854775808 ≤ x)
    (h2 : x < 9223372036854775808) : wrapInt64 x = x := by
  rw [wrapInt64, Int.emod_eq_of_lt (by omega) (by omega)]
  omega

/-! The nil pointer returned by `calculateConsumedCapacity`. -/

theorem calc_nilPtr_imp {r : Option Quantity} {pol : CapacitySharingPolicy}
    (h : calculateConsumedCapacity r pol = CalcResult.nilPtr) :
    pol.validRange = none ∧ pol.validValues = none ∧ r = none := by
  cases hvr : pol.validRange with
  | some vr =>
    exfalso
    rw [calculateConsumedCapacity.eq_def, hvr] at h
    cases r with
    | none =>
      cases hd : pol.default with
      | some d => simp [hd] at h
      | none => simp [hd] at h
    | some rq =>
      by_cases hcmp : rq.Cmp vr.min < 0
      · simp [hcmp] at h
      · cases hstep : vr.step with
        | some st => simp [hcmp, hstep] at h
        | none => simp [hcmp, hstep] at h
  | none =>
    cases hvv : pol.validValues with
    | some vs =>
      exfalso
      rw [calculateConsumedCapacity.eq_def, hvr, hvv] at h
      cases r with
      | none =>
        cases hd : pol.default with
        | some d => simp [hd] at h
        | none => simp [hd] at h
      | some rq => simp at h
    | none =>
      cases r with
      | some rq =>
        exfalso
        rw [calculateConsumedCapacity.eq_def, hvr, hvv] at h
        simp at h
      | none => exact ⟨rfl, rfl, rfl⟩

theorem processCapacity_ne_nilDeref (clone : ConsumedCapacity)
    (requests : CapacityRequests) (am : Option Bool)
    (alloc : Option ConsumedCapacity) (name : QualifiedName) (cap : DeviceCapacity)
    (h : ∀ pol, cap.sharingPolicy = some pol → exactlyOnePolicyVariant pol) :
    processCapacity clone requests am alloc name cap
      ≠ Sum.inl CmpOutcome.panicNilDeref := by
  cases hpol : cap.sharingPolicy with
  | none =>
    rw [processCapacity, hpol]
    dsimp only
    split
    · split
      · simp
      · split <;> simp
    · simp
  | some pol =>
    rw [processCapacity, hpol]
    dsimp only
    cases hcalc : calculateConsumedCapacity (requestedValOf requests name) pol with
    | panicNilDefault => simp
    | nilPtr =>
      intro _
      obtain ⟨h1, h2, _⟩ := calc_nilPtr_imp hcalc
      rcases h pol hpol with hone | hone
      · rw [h1] at hone
        simp at hone
      · rw [h2] at hone
        simp at hone
    | val consumed =>
      dsimp only
      split
      · simp
      · split <;> simp

theorem cmpLoop_ne_nilDeref :
    ∀ (caps : List (QualifiedName × DeviceCapacity)) (clone : ConsumedCapacity)
      (requests : CapacityRequests) (am : Option Bool)
      (alloc : Option ConsumedCapacity),
    (∀ name cap pol, (name, cap) ∈ caps → cap.sharingPolicy = some pol →
      exactlyOnePolicyVariant pol) →
    cmpLoop clone requests am alloc caps ≠ CmpOutcome.panicNilDeref := by
  intro caps
  induction caps with
  | nil =>
    intro clone requests am alloc _
    simp [cmpLoop]
  | cons p rest ih =>
    intro clone requests am alloc h
    obtain ⟨name, cap⟩ := p
    rw [cmpLoop]
    cases hp : processCapacity clone requests am alloc name cap with
    | inl outcome =>
      intro hcontra
      simp only at hcontra
      subst hcontra
      exact processCapacity_ne_nilDeref clone requests am alloc name cap
        (fun pol hpol => h name cap pol (List.mem_cons_self _ _) hpol) hp
    | inr clone' =>
      simp only
      exact ih clone' requests am alloc
        (fun n c pol hmem hpol => h n c pol (List.mem_cons.mpr (Or.inr hmem)) hpol)

/-! Generate-loop lemmas. -/

theorem genLoopAux_success :
    ∀ (fuel count : Nat) (used : Finset SharedDeviceID) (dev : DeviceID)
      (draws : Nat → String) (maxTry : Int) (s : String)
      (used' : Finset SharedDeviceID) (n : Nat),
    genLoopAux dev draws maxTry used count fuel = (some s, used', n) →
    MakeSharedDeviceID dev s ∉ used ∧
      used' = insert (MakeSharedDeviceID dev s) used := by
  intro fuel
  induction fuel with
  | zero =>
    intro count used dev draws maxTry s used' n h
    simp [genLoopAux] at h
  | succ fuel ih =>
    intro count used dev draws maxTry s used' n h
    rw [genLoopAux] at h
    by_cases hmem : MakeSharedDeviceID dev (draws count) ∈ used
    · rw [if_pos hmem] at h
      by_cases hcnt : (count + 1 : Int) > maxTry
      · rw [if_pos hcnt] at h
        simp at h
      · rw [if_neg hcnt] at h
        exact ih _ _ _ _ _ _ _ _ h
    · rw [if_neg hmem] at h
      simp only [Prod.mk.injEq] at h
      obtain ⟨h1, h2, _⟩ := h
      injection h1 with h1
      subst h1
      exact ⟨hmem, h2.symm⟩

theorem generate_success {f : UniqueHexStringFactory} {dev : DeviceID}
    {maxTry : Int} {d : Nat → String} {s : String}
    (h : (GenerateNewShareID f dev maxTry d).shareID = some s) :
    MakeSharedDeviceID dev s ∉ f.usedIDs ∧
    (GenerateNewShareID f dev maxTry d).factory.usedIDs
      = insert (MakeSharedDeviceID dev s) f.usedIDs := by
  have h0 : genLoopAux dev d maxTry f.usedIDs 0 (maxTry.toNat + 1)
      = ((GenerateNewShareID f dev maxTry d).shareID,
         (GenerateNewShareID f dev maxTry d).factory.usedIDs,
         (GenerateNewShareID f dev maxTry d).drawCount) := rfl
  rw [h] at h0
  exact genLoopAux_success _ _ _ _ _ _ _ _ _ h0

theorem runGenerates_all_success :
    ∀ (streams : List (Nat → String)) (f : UniqueHexStringFactory)
      (dev : DeviceID) (maxTry : Int),
    (∀ r ∈ (runGenerates f dev maxTry streams).1, r.isSome = true) →
    ((runGenerates f dev maxTry streams).2.usedIDs.card
        = f.usedIDs.card + streams.length) ∧
    f.usedIDs ⊆ (runGenerates f dev maxTry streams).2.usedIDs ∧
    ((runGenerates f dev maxTry streams).1.filterMap id).Nodup ∧
    (∀ s, some s ∈ (runGenerates f dev maxTry streams).1 →
        MakeSharedDeviceID dev s ∉ f.usedIDs ∧
        MakeSharedDeviceID dev s ∈ (runGenerates f dev maxTry streams).2.usedIDs) := by
  intro streams
  induction streams with
  | nil =>
    intro f dev maxTry _
    refine ⟨by simp [runGenerates], by simp [runGenerates], by simp [runGenerates], ?_⟩
    intro s hs
    simp [runGenerates] at hs
  | cons d ds ih =>
    intro f dev maxTry h
    have hres : (runGenerates f dev maxTry (d :: ds)).1
        = (GenerateNewShareID f dev maxTry d).shareID
          :: (runGenerates (GenerateNewShareID f dev maxTry d).factory dev maxTry ds).1 := rfl
    have hfin : (runGenerates f dev maxTry (d :: ds)).2
        = (runGenerates (GenerateNewShareID f dev maxTry d).factory dev maxTry ds).2 := rfl
    obtain ⟨s₀, hs₀⟩ : ∃ s₀, (GenerateNewShareID f dev maxTry d).shareID = some s₀ := by
      have h1 := h (GenerateNewShareID f dev maxTry d).shareID
        (by rw [hres]; exact List.mem_cons_self _ _)
      cases hsh : (GenerateNewShareID f dev maxTry d).shareID with
      | none => rw [hsh] at h1; simp at h1
      | some s₀ => exact ⟨s₀, rfl⟩
    obtain ⟨hnotmem, hins⟩ := generate_success hs₀
    have hrest : ∀ r ∈ (runGenerates (GenerateNewShareID f dev maxTry d).factory
        dev maxTry ds).1, r.isSome = true := by
      intro r hr
      exact h r (by rw [hres]; exact List.mem_cons.mpr (Or.inr hr))
    obtain ⟨ihcard, ihsub, ihnodup, ihmem⟩ := ih _ dev maxTry hrest
    have hsub1 : f.usedIDs ⊆ (GenerateNewShareID f dev maxTry d).factory.usedIDs := by
      rw [hins]
      exact Finset.subset_insert _ _
  
    refine ⟨?_, ?_, ?_, ?_⟩
    · rw [hfin, ihcard, hins, Finset.card_insert_of_not_mem hnotmem]
      simp [List.length_cons]
      omega
    · rw [hfin]
      exact hsub1.trans ihsub
    · rw [hres, List.filterMap_cons]
      simp only [id_eq, hs₀]
      rw [List.nodup_cons]
      constructor
      · intro hmem0
        have hmem0' : some s₀ ∈ (runGenerates (GenerateNewShareID f dev maxTry d).factory
            dev maxTry ds).1 := by
          rcases List.mem_filterMap.mp hmem0 with ⟨r, hr, hid⟩
          cases r with
          | none => simp at hid
          | some s' =>
            simp at hid
            subst hid
            exact hr
        have := (ihmem s₀ hmem0').1
        rw [hins] at this
        exact this (Finset.mem_insert_self _ _)
      · exact ihnodup
    · intro s hs
      rw [hres] at hs
      rcases List.mem_cons.mp hs with h1 | h1
      · have hss : s = s₀ := by
          rw [hs₀] at h1
          injection h1.symm with hx
          exact hx.symm
        subst hss
        constructor
        · exact hnotmem
        · rw [hfin]
          apply ihsub
          rw [hins]
          exact Finset.mem_insert_self _ _
      · obtain ⟨hn1, hn2⟩ := ihmem s h1
        constructor
        · intro hmem0
          exact hn1 (hsub1 hmem0)
        · rw [hfin]
          exact hn2


/-! The numeric value accumulated for one capacity name by
`processCapacity`: clone entry, plus normalized consumed quantity, plus the
in-flight quantity for the name. -/

theorem candidate_val (clone : ConsumedCapacity) (alloc : Option ConsumedCapacity)
    (name : QualifiedName) (consumed : Quantity) :
    (match alloc with
     | some allocating =>
       match alookup allocating name with
       | some allocatingVal =>
         (match alookup clone name with
          | some q => q.Add consumed
          | none => consumed).Add allocatingVal
       | none =>
         match alookup clone name with
         | some q => q.Add consumed
         | none => consumed
     | none =>
       match alookup clone name with
       | some q => q.Add consumed
       | none => consumed).val
    = ccVal clone name + consumed.val
        + optVal (alloc.bind (fun a => alookup a name)) := by
  cases alloc with
  | none =>
    cases h : alookup clone name <;> simp [Quantity.Add, ccVal, h, optVal]
  | some allocating =>
    cases h2 : alookup allocating name <;> cases h : alookup clone name <;>
      simp [Quantity.Add, ccVal, h, h2, optVal]

/-- C1 (amended): for a shareable capacity whose normalized consumed
quantity passes the policy check, `CmpRequestOverCapacity`'s loop body adds
the consumed quantity and then the in-flight quantity for that name onto the
clone of the committed consumption and returns NoFit whenever that candidate
compares strictly greater than the nominal value.  The first S5 example
(device 10Gi, committed 9Gi, request 2Gi) returns NoFit; the second S5 input
(committed empty, in-flight 1Gi, request 9Gi) accumulates to exactly 10Gi,
which is not strictly greater than the value, so it returns Fit. -/
theorem C1_fit_ceiling :
    (∀ (clone : ConsumedCapacity) (requests : CapacityRequests) (am : Option Bool)
        (alloc : Option ConsumedCapacity) (name : QualifiedName) (cap : DeviceCapacity)
        (pol : CapacitySharingPolicy) (consumed : Quantity),
        cap.sharingPolicy = some pol →
        calculateConsumedCapacity (requestedValOf requests name) pol
          = CalcResult.val consumed →
        violatesPolicy consumed (some pol) = false →
        cap.value.val
          < ccVal clone name + consumed.val
              + optVal (alloc.bind (fun a => alookup a name)) →
        processCapacity clone requests am alloc name cap
          = Sum.inl CmpOutcome.noFit) ∧
    CmpRequestOverCapacity [("c", q9Gi)] (some [("c", q2Gi)]) (some true)
        s5Capacity none = CmpOutcome.noFit ∧
    CmpRequestOverCapacity [] (some [("c", q9Gi)]) (some true)
        s5Capacity (some [("c", q1Gi)]) = CmpOutcome.fit := by
  refine ⟨?_, by decide, by decide⟩
  intro clone requests am alloc name cap pol consumed hpol hcalc hviol hover
  have hfin : ∀ cand : Quantity,
      cand.val = ccVal clone name + consumed.val
        + optVal (alloc.bind (fun a => alookup a name)) →
      cand.Cmp cap.value > 0 := by
    intro cand hv
    rw [Quantity.Cmp]
    split_ifs with h1 h2 <;> omega
  rw [processCapacity, hpol]
  dsimp only
  rw [hcalc]
  dsimp only
  rw [if_neg (by simp [hviol])]
  rw [if_pos (hfin _ (candidate_val clone alloc name consumed))]

/-- C1 counterexample to the claim as stated: with device value 10Gi,
policy `ValidRange{min: 1Gi, default: 1Gi}`, committed empty, in-flight
`{c: 1Gi}` and request 9Gi the accumulated candidate is exactly 10Gi, so
`CmpRequestOverCapacity` returns Fit, not the NoFit the claim asserts. -/
theorem C1_second_example_returns_fit :
    CmpRequestOverCapacity [] (some [("c", q9Gi)]) (some true)
        s5Capacity (some [("c", q1Gi)]) = CmpOutcome.fit ∧
    CmpRequestOverCapacity [] (some [("c", q9Gi)]) (some true)
        s5Capacity (some [("c", q1Gi)]) ≠ CmpOutcome.noFit := by
  refine ⟨by decide, by decide⟩

theorem C1_fit_ceiling_witness :
    processCapacity [] (some [("c", q2Gi)]) (some true) none "c"
        { value := q1Gi, sharingPolicy := some s5Policy }
      = Sum.inl CmpOutcome.noFit :=
  C1_fit_ceiling.1 [] (some [("c", q2Gi)]) (some true) none "c"
    { value := q1Gi, sharingPolicy := some s5Policy } s5Policy q2Gi
    rfl (by decide) (by decide) (by decide)

/-- C2 counterexample to the claim as stated: the source computes the step
rounding in `int64`, which wraps.  With `ValidRange{min: 0, step: 3}` and
request `2^63 - 1` (at least the minimum, step positive) the product
`step * n = 3 * 3074457345618258603` overflows to `-9223372036854775807`, a
normalized value that is off the step grid and different from
`min + step * ⌈(r - min) / step⌉`. -/
theorem C2_int64_wrap :
    qZero.val ≤ qMaxInt64.val ∧ 0 < qThree.val ∧
    calculateConsumedCapacity (some qMaxInt64) wrapStepPolicy
      = CalcResult.val (NewQuantity (-9223372036854775807) Format.binarySI) ∧
    ((-9223372036854775807 : Int) - qZero.val) % qThree.val ≠ 0 ∧
    (-9223372036854775807 : Int)
      ≠ qZero.val + qThree.val * ceilDiv (qMaxInt64.val - qZero.val) qThree.val := by
  refine ⟨by decide, by decide, by decide, by decide, by decide⟩

/-- C2 (amended): for a `ValidRange` policy with a positive step, a
nonnegative minimum and a request at least the minimum, provided the
request, the step and the exact result
`min + step * ⌈(r - min) / step⌉` all lie below `2^63` (so no `int64`
operation overflows), `calculateConsumedCapacity` returns exactly that
value, which lies on the step grid: `(normalize(r) - min) mod step = 0`. -/
theorem C2_grid_closure (pol : CapacitySharingPolicy)
    (vr : CapacitySharingPolicyRange) (st r : Quantity)
    (hvr : pol.validRange = some vr) (hst : vr.step = some st)
    (hpos : 0 < st.val) (hge : vr.min.val ≤ r.val)
    (hmin : 0 ≤ vr.min.val) (hr63 : r.val < 9223372036854775808)
    (hst63 : st.val < 9223372036854775808)
    (hexact : vr.min.val + st.val * ceilDiv (r.val - vr.min.val) st.val
      < 9223372036854775808) :
    ∃ q : Quantity,
      calculateConsumedCapacity (some r) pol = CalcResult.val q ∧
      q.val = vr.min.val + st.val * ceilDiv (r.val - vr.min.val) st.val ∧
      (q.val - vr.min.val) % st.val = 0 := by
  have hcmp : ¬(r.Cmp vr.min < 0) := by
    rw [Quantity.Cmp]
    split_ifs with h1 h2 <;> omega
  have hceil : (if (r.val - vr.min.val).tmod st.val ≠ 0
      then (r.val - vr.min.val).tdiv st.val + 1
      else (r.val - vr.min.val).tdiv st.val)
      = ceilDiv (r.val - vr.min.val) st.val :=
    ceil_step _ _ (by omega) hpos
  have htd : (r.val - vr.min.val).tdiv st.val = (r.val - vr.min.val) / st.val :=
    Int.tdiv_eq_ediv (by omega) (by omega)
  have htd0 : 0 ≤ (r.val - vr.min.val) / st.val :=
    Int.ediv_nonneg (by omega) (by omega)
  have htdle : (r.val - vr.min.val) / st.val ≤ r.val - vr.min.val :=
    Int.ediv_le_self _ (by omega)
  have hwr : wrapInt64 r.val = r.val :=
    wrapInt64_eq_of_range _ (by omega) (by omega)
  have hwst : wrapInt64 st.val = st.val :=
    wrapInt64_eq_of_range _ (by omega) (by omega)
  have hwmin : wrapInt64 vr.min.val = vr.min.val :=
    wrapInt64_eq_of_range _ (by omega) (by omega)
  have hwadded : wrapInt64 (r.val - vr.min.val) = r.val - vr.min.val :=
    wrapInt64_eq_of_range _ (by omega) (by omega)
  have hwn : wrapInt64 ((r.val - vr.min.val).tdiv st.val)
      = (r.val - vr.min.val).tdiv st.val := by
    rw [htd]
    exact wrapInt64_eq_of_range _ (by omega) (by omega)
  have hN0 : 0 ≤ ceilDiv (r.val - vr.min.val) st.val := by
    rw [ceilDiv]
    exact Int.ediv_nonneg (by omega) (by omega)
  have hstN : ceilDiv (r.val - vr.min.val) st.val
      ≤ st.val * ceilDiv (r.val - vr.min.val) st.val :=
    le_mul_of_one_le_left hN0 (by omega)
  have hstN0 : 0 ≤ st.val * ceilDiv (r.val - vr.min.val) st.val :=
    mul_nonneg (by omega) hN0
  have hw1 : wrapInt64 (st.val * ceilDiv (r.val - vr.min.val) st.val)
      = st.val * ceilDiv (r.val - vr.min.val) st.val :=
    wrapInt64_eq_of_range _ (by omega) (by omega)
  have hw2 : wrapInt64 (vr.min.val + st.val * ceilDiv (r.val - vr.min.val) st.val)
      = vr.min.val + st.val * ceilDiv (r.val - vr.min.val) st.val :=
    wrapInt64_eq_of_range _ (by omega) (by omega)
  have hwN : wrapInt64 (ceilDiv (r.val - vr.min.val) st.val)
      = ceilDiv (r.val - vr.min.val) st.val :=
    wrapInt64_eq_of_range _ (by omega) (by omega)
  have he : vr.min.val + st.val * ceilDiv (r.val - vr.min.val) st.val - vr.min.val
      = st.val * ceilDiv (r.val - vr.min.val) st.val := by ring
  rw [calculateConsumedCapacity.eq_def, hvr]
  dsimp only
  rw [if_neg hcmp, hst]
  dsimp only [Quantity.Value]
  rw [hwr, hwst, hwmin, hwadded, hwn]
  by_cases hmd : (r.val - vr.min.val).tmod st.val = 0
  · have hc : ¬((r.val - vr.min.val).tmod st.val ≠ 0) := by omega
    rw [if_neg hc] at hceil
    rw [if_neg hc, hceil, hw1, hw2]
    refine ⟨_, rfl, ?_, ?_⟩
    · simp [NewQuantity]
    · simp only [NewQuantity]
      rw [he, Int.mul_emod_right]
  · rw [if_pos hmd] at hceil
    rw [if_pos hmd, hceil, hwN, hw1, hw2]
    refine ⟨_, rfl, ?_, ?_⟩
    · simp [NewQuantity]
    · simp only [NewQuantity]
      rw [he, Int.mul_emod_right]

theorem C2_grid_closure_witness :
    0 < q2Gi.val ∧ q1Gi.val ≤ q2Gi.val ∧
    (∃ q : Quantity,
      calculateConsumedCapacity (some q2Gi) stepPolicy = CalcResult.val q ∧
      q.val = q1Gi.val + q2Gi.val * ceilDiv (q2Gi.val - q1Gi.val) q2Gi.val ∧
      (q.val - q1Gi.val) % q2Gi.val = 0) :=
  ⟨by decide, by decide,
    C2_grid_closure stepPolicy { min := q1Gi, max := none, step := some q2Gi }
      q2Gi q2Gi rfl rfl (by decide) (by decide) (by decide) (by decide)
      (by decide) (by decide)⟩

/-- C3: a capacity without a sharing policy whose name is requested while
`allowMultipleAllocations` is true makes the loop body of
`CmpRequestOverCapacity` return the NoGuarantee error, and the whole call
surfaces it (shown on a single-capacity device). -/
theorem C3_noGuarantee :
    (∀ (clone : ConsumedCapacity) (requests : CapacityRequests)
        (alloc : Option ConsumedCapacity) (name : QualifiedName)
        (cap : DeviceCapacity) (r : Quantity),
        cap.sharingPolicy = none →
        requestedValOf requests name = some r →
        processCapacity clone requests (some true) alloc name cap
          = Sum.inl CmpOutcome.errNoGuarantee) ∧
    CmpRequestOverCapacity [] (some [("gpu", q1Gi)]) (some true)
        [("gpu", { value := q1Gi, sharingPolicy := none })] none
      = CmpOutcome.errNoGuarantee := by
  refine ⟨?_, by decide⟩
  intro clone requests alloc name cap r hpol hreq
  rw [processCapacity, hpol]
  dsimp only
  rw [hreq]
  dsimp only
  rw [if_pos rfl]

theorem C3_noGuarantee_witness :
    processCapacity [] (some [("gpu", q1Gi)]) (some true) none "gpu"
        { value := q1Gi, sharingPolicy := none }
      = Sum.inl CmpOutcome.errNoGuarantee :=
  C3_noGuarantee.1 [] (some [("gpu", q1Gi)]) none "gpu"
    { value := q1Gi, sharingPolicy := none } q1Gi rfl (by decide)

/-- C4: `DeleteShareID` deletes the composite key only when the `exists`
lookup flag is false, so it never changes the used set: a present key
survives the release that the claim says removes it (shown also at the
concrete failing input). -/
theorem C4_delete_noop :
    (∀ (f : UniqueHexStringFactory) (devID : DeviceID) (sid : String),
        (DeleteShareID f devID sid).usedIDs = f.usedIDs) ∧
    MakeSharedDeviceID dev1 "ab" ∈
      (DeleteShareID { usedIDs := {MakeSharedDeviceID dev1 "ab"}, nBytes := 8 }
        dev1 "ab").usedIDs := by
  constructor
  · intro f devID sid
    rw [DeleteShareID]
    by_cases hmem : MakeSharedDeviceID devID sid ∈ f.usedIDs
    · rw [if_pos hmem]
    · rw [if_neg hmem]
      exact Finset.erase_eq_of_not_mem hmem
  · decide

/-- C5 counterexample to the claim as stated: inserting and then removing a
`DeviceConsumedCapacity` that introduces a new capacity name `b` on an
existing device leaves a zero-quantity entry for `b`, so the round trip is
not equal to the original collection entry-for-entry. -/
theorem C5_strict_roundtrip_fails :
    ConsumedCapacityCollection.equivStrict
      (ConsumedCapacityCollection.Remove
        (ConsumedCapacityCollection.Insert
          (ConsumedCapacityCollection.Clone [(dev1, [("a", q1Gi)])])
          { deviceID := dev1, consumedCapacity := [("b", q1Gi)] })
        { deviceID := dev1, consumedCapacity := [("b", q1Gi)] })
      [(dev1, [("a", q1Gi)])] = false := by
  decide

/-- C5 (amended): inserting `d` into a clone of `C` and then removing `d`
yields a collection numerically equal to `C` at every device and capacity
name, where an absent entry counts as zero (the round trip may retain
zero-quantity entries for names `d` introduced, and prunes a device whose
entries all became zero). -/
theorem C5_insert_remove_inverse (C : ConsumedCapacityCollection)
    (d : DeviceConsumedCapacity) (hC : NodupKeys C)
    (hd : NodupKeys d.consumedCapacity) (dev : DeviceID) (k : QualifiedName) :
    collVal
      (ConsumedCapacityCollection.Remove
        (ConsumedCapacityCollection.Insert (ConsumedCapacityCollection.Clone C) d) d)
      dev k
    = collVal C dev k := by
  rw [collection_clone_eq]
  exact collVal_insert_remove C d hC hd dev k

theorem C5_insert_remove_inverse_witness :
    collVal
      (ConsumedCapacityCollection.Remove
        (ConsumedCapacityCollection.Insert
          (ConsumedCapacityCollection.Clone [(dev1, [("a", q1Gi)])])
          { deviceID := dev1, consumedCapacity := [("b", q1Gi)] })
        { deviceID := dev1, consumedCapacity := [("b", q1Gi)] })
      dev1 "b"
    = collVal [(dev1, [("a", q1Gi)])] dev1 "b" :=
  C5_insert_remove_inverse [(dev1, [("a", q1Gi)])]
    { deviceID := dev1, consumedCapacity := [("b", q1Gi)] }
    (by decide) (by decide) dev1 "b"

/-- C6: for a policy with a populated default and exactly one variant,
`violatesPolicy` accepts the default value and `calculateConsumedCapacity`
on an absent request returns the default. -/
theorem C6_default_acceptance (pol : CapacitySharingPolicy) (d : Quantity)
    (hd : pol.default = some d) (hone : exactlyOnePolicyVariant pol) :
    violatesPolicy d (some pol) = false ∧
    calculateConsumedCapacity none pol = CalcResult.val d := by
  constructor
  · rw [violatesPolicy.eq_def]
    simp [hd]
  · rcases hone with ⟨h1, h2⟩ | ⟨h1, h2⟩
    · obtain ⟨vr, hvr⟩ := Option.isSome_iff_exists.mp h1
      rw [calculateConsumedCapacity.eq_def, hvr]
      dsimp only
      rw [hd]
      exact rfl
    · obtain ⟨vs, hvs⟩ := Option.isSome_iff_exists.mp h2
      rw [calculateConsumedCapacity.eq_def, h1, hvs]
      dsimp only
      rw [hd]
      exact rfl

theorem C6_default_acceptance_witness :
    violatesPolicy q1Gi (some s5Policy) = false ∧
    calculateConsumedCapacity none s5Policy = CalcResult.val q1Gi :=
  C6_default_acceptance s5Policy q1Gi rfl (by decide)

/-- C7: at the concrete failing input (`maxTry = 1`, both drawn candidates
already used) `GenerateNewShareID` draws `maxTry + 1 = 2` random candidates
before returning the exhaustion error, exceeding the bound of `maxTry`
attempts stated by the claim and by the function's own documentation. -/
theorem C7_attempt_overrun :
    (GenerateNewShareID
        { usedIDs := {MakeSharedDeviceID dev1 "aa", MakeSharedDeviceID dev1 "ab"},
          nBytes := 1 } dev1 1 (fun n => if n = 0 then "aa" else "ab")).shareID
      = none ∧
    (GenerateNewShareID
        { usedIDs := {MakeSharedDeviceID dev1 "aa", MakeSharedDeviceID dev1 "ab"},
          nBytes := 1 } dev1 1 (fun n => if n = 0 then "aa" else "ab")).drawCount
      = 2 := by
  exact ⟨by decide, by decide⟩

/-- C8: a run of generate calls on one device that all succeed returns
pairwise-distinct share IDs and grows the used set by exactly the number of
calls. -/
theorem C8_shareID_uniqueness (f : UniqueHexStringFactory) (dev : DeviceID)
    (maxTry : Int) (streams : List (Nat → String))
    (h : ∀ r ∈ (runGenerates f dev maxTry streams).1, r.isSome = true) :
    ((runGenerates f dev maxTry streams).1.filterMap id).Nodup ∧
    (runGenerates f dev maxTry streams).2.usedIDs.card
      = f.usedIDs.card + streams.length := by
  obtain ⟨hcard, _, hnodup, _⟩ := runGenerates_all_success streams f dev maxTry h
  exact ⟨hnodup, hcard⟩

theorem C8_shareID_uniqueness_witness :
    ((runGenerates { usedIDs := ∅, nBytes := 8 } dev1 10
        [fun _ => "aa", fun _ => "bb"]).1.filterMap id).Nodup ∧
    (runGenerates { usedIDs := ∅, nBytes := 8 } dev1 10
        [fun _ => "aa", fun _ => "bb"]).2.usedIDs.card
      = (∅ : Finset SharedDeviceID).card + 2 :=
  C8_shareID_uniqueness { usedIDs := ∅, nBytes := 8 } dev1 10
    [fun _ => "aa", fun _ => "bb"] (by decide)

/-- C9: a request holding a name that is not a key of the device capacity
map makes `CmpRequestOverCapacity` return the unknown-capacity error, for
every committed and in-flight consumption. -/
theorem C9_unknown_capacity (current : ConsumedCapacity)
    (requests : List (QualifiedName × Quantity)) (am : Option Bool)
    (capacity : List (QualifiedName × DeviceCapacity))
    (alloc : Option ConsumedCapacity) (name : QualifiedName) (q : Quantity)
    (hmem : (name, q) ∈ requests) (hunk : alookup capacity name = none) :
    CmpRequestOverCapacity current (some requests) am capacity alloc
      = CmpOutcome.errNonExistCapacity := by
  have hcontain : requestsContainNonExistCapacity (some requests) capacity = true := by
    rw [requestsContainNonExistCapacity.eq_def]
    dsimp only
    rw [List.any_eq_true]
    refine ⟨(name, q), hmem, ?_⟩
    rw [hunk]
    rfl
  rw [CmpRequestOverCapacity, if_pos hcontain]

theorem C9_unknown_capacity_witness :
    CmpRequestOverCapacity [] (some [("x", q1Gi)]) none s5Capacity none
      = CmpOutcome.errNonExistCapacity :=
  C9_unknown_capacity [] [("x", q1Gi)] none s5Capacity none "x" q1Gi
    (by decide) (by decide)

/-- C10: a device capacity with a non-nil sharing policy in which neither
variant is populated and an absent request makes
`calculateConsumedCapacity` return the nil pointer that
`CmpRequestOverCapacity` dereferences (the panic branch of the embedding);
when every policy in the capacity map has exactly one populated variant,
that branch is unreachable. -/
theorem C10_nil_policy_deref :
    CmpRequestOverCapacity [] none none
      [("c", { value := q10Gi,
               sharingPolicy := some
                 { default := some q1Gi, validRange := none, validValues := none } })]
      none = CmpOutcome.panicNilDeref ∧
    (∀ (current : ConsumedCapacity) (requests : CapacityRequests) (am : Option Bool)
       (capacity : List (QualifiedName × DeviceCapacity))
       (alloc : Option ConsumedCapacity),
     (∀ name cap pol, (name, cap) ∈ capacity → cap.sharingPolicy = some pol →
        exactlyOnePolicyVariant pol) →
     CmpRequestOverCapacity current requests am capacity alloc
       ≠ CmpOutcome.panicNilDeref) := by
  constructor
  · decide
  · intro current requests am capacity alloc h
    rw [CmpRequestOverCapacity]
    by_cases hc : requestsContainNonExistCapacity requests capacity = true
    · rw [if_pos hc]
      simp
    · rw [if_neg hc]
      exact cmpLoop_ne_nilDeref capacity _ requests am alloc h

theorem C10_nil_policy_deref_witness :
    CmpRequestOverCapacity [] none none s5Capacity none
      ≠ CmpOutcome.panicNilDeref :=
  C10_nil_policy_deref.2 [] none none s5Capacity none
    (by
      intro name cap pol hmem hpol
      simp only [s5Capacity, List.mem_singleton] at hmem
      have hcap : cap = { value := q10Gi, sharingPolicy := some s5Policy } := by
        have h2 := congrArg Prod.snd hmem
        simpa using h2
      rw [hcap] at hpol
      have h3 : s5Policy = pol := Option.some.inj hpol
      rw [← h3]
      decide)

end DRA
